import Mathlib

/-!
Shallow embedding of `get_ashtonwoods_community.py`, a single-file scraper that
parses a homebuilder's community pages into structured records.  Pure parsing
logic is translated directly; browser/geocoder interaction is represented by
the data it would return (page text nodes, card elements, geocode results).
Python exceptions that the source catches are modelled with `Option`.
-/

/-- Whitespace test used to model Python `str.split()` / `str.strip()`. -/
def isWs (c : Char) : Bool := c.isWhitespace

/-- Model of Python `str.split()` with no argument: splits on runs of
whitespace, dropping empty pieces.  Structural recursion on a character
budget (`wordsLoop` always supplies the list length, which is sufficient). -/
def wordsAux : Nat → List Char → List (List Char)
  | _, [] => []
  | 0, _ :: _ => []
  | n + 1, c :: cs =>
    if isWs c then wordsAux n cs
    else (c :: cs.takeWhile (fun x => !isWs x)) :: wordsAux n (cs.dropWhile (fun x => !isWs x))

/-- Python `s.split()` at the character-list level. -/
def wordsLoop (l : List Char) : List (List Char) := wordsAux l.length l

/-- Model of Python `str.strip()`: drop leading and trailing whitespace. -/
def pyStripChars (l : List Char) : List Char :=
  ((l.dropWhile isWs).reverse.dropWhile isWs).reverse

/-- Python `s.split()` at the `String` level. -/
def pyWords (s : String) : List String := (wordsLoop s.data).map String.mk

/-- Join a word list with single spaces, modelling `' '.join(...)`. -/
def joinWords : List (List Char) → List Char
  | [] => []
  | [w] => w
  | w :: v :: ws => w ++ ' ' :: joinWords (v :: ws)

/-- No two adjacent whitespace characters: the shape of collapsed text. -/
def noTwoAdjWs : List Char → Bool
  | a :: b :: rest => (!(isWs a && isWs b)) && noTwoAdjWs (b :: rest)
  | _ => true

/-- `clean_text` (source lines 59-63): `None`/empty input gives `None`,
otherwise returns `' '.join(text.strip().split())`. -/
def clean_text : Option String → Option String
  | none => none
  | some t =>
    if t = "" then none
    else some (String.mk (joinWords (wordsLoop (pyStripChars t.data))))

/-- Python truthiness of an optional string (`None` and `""` are falsy). -/
def pyTruthy : Option String → Bool
  | none => false
  | some s => !(s == "")

/-- Substring test over character lists, used to model Python `pat in s`. -/
def containsSub (pat : List Char) : List Char → Bool
  | [] => pat.isEmpty
  | c :: cs => pat.isPrefixOf (c :: cs) || containsSub pat cs

/-- Python `pat in s` on strings. -/
def pyIn (pat s : String) : Bool := containsSub pat.data s.data

/-- Model of Python `s.split(sep)` for a one-character separator (the only
kind this program uses): split at every occurrence, keeping empty pieces. -/
def pySplitCharAux (sep : Char) : List Char → List Char → List (List Char)
  | [], cur => [cur.reverse]
  | c :: cs, cur =>
    if c = sep then cur.reverse :: pySplitCharAux sep cs []
    else pySplitCharAux sep cs (c :: cur)

/-- `s.split(sep)` at the `String` level. -/
def pySplitStr (sep : Char) (s : String) : List String :=
  (pySplitCharAux sep s.data []).map String.mk

/-- Python `str.strip()` at the `String` level. -/
def pyStrip (s : String) : String := String.mk (pyStripChars s.data)

/-- Model of Python `str.replace(pat, sub)`: replace every non-overlapping
occurrence, left to right.  The budget is the input length; every step
consumes at least one character (the source never replaces an empty
pattern). -/
def pyReplaceAux (pat sub : List Char) : Nat → List Char → List Char
  | _, [] => []
  | 0, l => l
  | n + 1, c :: cs =>
    if pat.isPrefixOf (c :: cs) then sub ++ pyReplaceAux pat sub n ((c :: cs).drop pat.length)
    else c :: pyReplaceAux pat sub n cs

/-- `s.replace(pat, sub)` at the `String` level. -/
def pyReplace (s pat sub : String) : String :=
  if pat = "" then s
  else String.mk (pyReplaceAux pat.data sub.data s.data.length s.data)

/-- Parse a non-empty all-digit character list as a natural number. -/
def digitsToNat? (l : List Char) : Option Nat :=
  if l.isEmpty then none
  else if l.all Char.isDigit then
    some (l.foldl (fun acc c => acc * 10 + (c.toNat - '0'.toNat)) 0)
  else none

/-- Python `str.upper()` (ASCII use in this program). -/
def pyUpper (s : String) : String := String.mk (s.data.map Char.toUpper)

/-- Python `str.capitalize()`: first character upper-cased, rest lower-cased. -/
def pyCapitalize (s : String) : String :=
  match s.data with
  | [] => ""
  | c :: cs => String.mk (c.toUpper :: cs.map Char.toLower)

/-- Python `int()` on a rational: truncation toward zero. -/
def pyInt (q : ℚ) : Int := Int.tdiv q.num (Int.ofNat q.den)

/-- Modelled Python builtin `float()` restricted to the decimal tokens this
program produces (digit strings with an optional single decimal point; no
sign, exponent or inf/nan forms).  `none` models the `ValueError` raised on a
non-convertible string. -/
def pyFloatQ (s : String) : Option ℚ :=
  match pySplitCharAux '.' s.data [] with
  | [a] => (digitsToNat? a).map fun n => (n : ℚ)
  | [a, b] =>
    if a.isEmpty ∧ b.isEmpty then none
    else
      match (if a.isEmpty then some 0 else digitsToNat? a),
            (if b.isEmpty then some 0 else digitsToNat? b) with
      | some n, some m => some ((n : ℚ) + (m : ℚ) / (10 : ℚ) ^ b.length)
      | _, _ => none
  | _ => none

/-- Character class `[\d,]` of the price regex. -/
def isPriceChar (c : Char) : Bool := c.isDigit || c == ','

/-- `re.findall(r'\$[\d,]+K?', text)`: left-to-right scan for non-overlapping
greedy matches of `$`, one or more digits/commas, and an optional `K`.  A
failed attempt advances the scan position by one character, like the regex
engine.  Structural recursion on a character budget (the wrapper supplies
the list length, which is sufficient since every step consumes a
character). -/
def findPricesAux : Nat → List Char → List (List Char)
  | _, [] => []
  | 0, _ :: _ => []
  | n + 1, c :: cs =>
    if c = '$' then
      match cs.takeWhile isPriceChar with
      | [] => findPricesAux n cs
      | d :: ds =>
        match cs.dropWhile isPriceChar with
        | [] => ('$' :: d :: ds) :: findPricesAux n []
        | k :: more =>
          if k = 'K' then ('$' :: d :: (ds ++ ['K'])) :: findPricesAux n more
          else ('$' :: d :: ds) :: findPricesAux n (k :: more)
    else findPricesAux n cs

/-- `re.findall(r'\$[\d,]+K?', text)` over a character list. -/
def findAllPrices (l : List Char) : List (List Char) := findPricesAux l.length l

/-- `extract_price_range` (source lines 40-48). -/
def extract_price_range (text : String) : Option String :=
  if text = "" then none
  else
    match (findAllPrices text.data).map String.mk with
    | [] => none
    | [p] => some ("From " ++ p)
    | p₀ :: p₁ :: _ => some (p₀ ++ "-" ++ p₁)

/-- `get_range_from_values` (source lines 191-199).  Inputs are modelled as
numeric-or-`None` values (`float()` on the numeric call-site values is the
identity); the `if v is not None` guard drops the `none` entries. -/
def get_range_from_values (values : List (Option ℚ)) : Option String :=
  if values.isEmpty then none
  else
    match values.filterMap id with
    | [] => none
    | x :: xs =>
      let min_val := xs.foldl min x
      let max_val := xs.foldl max x
      if min_val = max_val then some (toString (pyInt min_val))
      else some (toString (pyInt min_val) ++ " - " ++ toString (pyInt max_val))

/-- Result shape of `parse_address` (source lines 65-103). -/
structure AddressInfo where
  full_address : String
  city : String
  state : String
  market : String
deriving DecidableEq, Repr

def emptyAddressInfo : AddressInfo :=
  { full_address := "", city := "", state := "", market := "Phoenix" }

/-- `parse_address` (source lines 65-103).  The input models the result of the
DOM walk: `some parts` is the list of stripped strings of the paragraph
following the `Sales Office` label when that chain of elements exists, `none`
when any of it is missing.  All shape tests in the source use `>= 2`. -/
def parse_address (block : Option (List String)) : AddressInfo :=
  match block with
  | none => emptyAddressInfo
  | some address_parts =>
    if 2 ≤ address_parts.length then
      let street := address_parts.getD 0 ""
      let city_state_zip := pySplitStr ',' (address_parts.getD 1 "")
      if 2 ≤ city_state_zip.length then
        let city := pyStrip (city_state_zip.getD 0 "")
        let state_zip := pyWords (pyStrip (city_state_zip.getD 1 ""))
        if 2 ≤ state_zip.length then
          { full_address :=
              street ++ ", " ++ city ++ ", " ++ state_zip.getD 0 "" ++ " " ++ state_zip.getD 1 "",
            city := city, state := state_zip.getD 0 "", market := "Phoenix" }
        else emptyAddressInfo
      else emptyAddressInfo
    else emptyAddressInfo

/-- Address reconstruction from a homesite URL slug (source lines 456-470):
hyphen-split of the trailing path segment; with at least 4 tokens, token 2 is
the street number, token 3 the upper-cased direction, tokens `4:-1` the
title-cased street name.  Returns `(address, name_without_zip)`. -/
def parse_homesite_address (url : String) : Option (String × String) :=
  let url_parts := pySplitStr '/' url
  let lot_address := url_parts.getLastD ""
  let address_parts := pySplitStr '-' lot_address
  if 4 ≤ address_parts.length then
    let street_number := address_parts.getD 2 ""
    let street_direction := pyUpper (address_parts.getD 3 "")
    let street_name := String.intercalate " " (((address_parts.drop 4).dropLast).map pyCapitalize)
    some (street_number ++ " " ++ street_direction ++ " " ++ street_name ++ ", Laveen, AZ 85339",
          street_number ++ " " ++ street_direction ++ " " ++ street_name ++ ", Laveen, AZ")
  else none

/-- One element scanned in the main-content fallback of `get_homesite_images`
(source lines 386-404).  Each field is the candidate URL from the
corresponding attribute (`styleUrl` is the URL the `background-image` regex
extracts from the `style` attribute, when present and matching). -/
structure DetailElem where
  dataDesktopImage : Option String
  src : Option String
  styleUrl : Option String
deriving DecidableEq, Repr

/-- Rendered content of one homesite detail page, as consumed by
`get_homesite_images`: the `data-desktop-image` attributes of the
`gallery-modal__item` elements, and the main-content elements. -/
structure DetailPage where
  galleryItems : List (Option String)
  mainElems : List DetailElem
deriving DecidableEq, Repr

/-- `is_valid_image_url` (source lines 366-375). -/
def is_valid_image_url : Option String → Bool
  | none => false
  | some s =>
    if pyIn "bizible.com" s || pyIn "marvel-b1-cdn" s then false
    else if !(pyIn "ashtonwoods.com" s || pyIn "widen.net" s) then false
    else true

/-- One `if is_valid_image_url(u) and u not in images: images.append(u)` step. -/
def addImage (images : List String) (u : Option String) : List String :=
  match u with
  | none => images
  | some s => if is_valid_image_url (some s) = true ∧ s ∉ images then images ++ [s] else images

/-- The three attribute checks run for one main-content element
(source lines 386-404), in source order. -/
def addElemImages (images : List String) (e : DetailElem) : List String :=
  addImage (addImage (addImage images e.dataDesktopImage) e.src) e.styleUrl

/-- `get_homesite_images` (source lines 346-411): gallery images first, the
main-content scan only when the gallery yielded nothing, capped at 12.  The
page fetch is represented by the `DetailPage` data; the source's catch-all
exception path returns `[]`. -/
def get_homesite_images (page : DetailPage) : List String :=
  let images := page.galleryItems.foldl addImage []
  let images := if images.isEmpty then page.mainElems.foldl addElemImages [] else images
  images.take 12

/-- Accumulator of the beds/baths/sqft feature-list loop
(source lines 291-307 and 491-507, which are identical). -/
structure FeatureState where
  beds : Option String
  baths : Option String
  sqft : Option String
deriving DecidableEq, Repr

/-- One iteration of the feature-list loop (source lines 295-307 / 495-507).
`none` models the exceptions the per-card `try` swallows: `'Beds' in None`
(TypeError when `clean_text` returned `None`) and the `[0]` IndexError when
the first pipe segment of a `Baths` item has no tokens. -/
def parse_feature_item (st : FeatureState) (raw : String) : Option FeatureState :=
  match clean_text (some raw) with
  | none => none
  | some text =>
    if pyIn "Beds" text then
      some { st with beds := some ((pyWords text).getD 0 "") }
    else if pyIn "Baths" text then
      let bath_parts := pySplitStr '|' text
      match pyWords (pyStrip (bath_parts.getD 0 "")) with
      | [] => none
      | main_baths :: _ =>
        let baths_val :=
          if 1 < bath_parts.length ∧ pyIn "Half" (bath_parts.getD 1 "") = true then
            main_baths ++ ".5"
          else main_baths
        some { st with baths := some baths_val }
    else if pyIn "sq. ft." text then
      some { st with sqft := some (pyReplace ((pyWords text).getD 0 "") "," "") }
    else some st

/-- Price extraction shared by both card kinds (source lines 282-289 and
482-489, identical): clean the text, and if truthy strip every `"From "`. -/
def parse_price_text (priceText : Option String) : Option String :=
  match priceText with
  | none => none
  | some pt =>
    match clean_text (some pt) with
    | none => none
    | some t => if t = "" then none else some (pyReplace t "From " "")

structure IncludedFeature where
  section_index : String
  description : String
deriving DecidableEq, Repr

/-- Enumerated body of the included-features loop. -/
def includedFeaturesAux (idx : Nat) : List String → List IncludedFeature
  | [] => []
  | raw :: rest =>
    match clean_text (some raw) with
    | none => includedFeaturesAux (idx + 1) rest
    | some s =>
      if s = "" then includedFeaturesAux (idx + 1) rest
      else ⟨toString idx, s⟩ :: includedFeaturesAux (idx + 1) rest

/-- Included-features extraction (source lines 309-319): enumerate the list
items, keep those whose cleaned text is truthy, tagged with `str(idx)`. -/
def includedFeaturesOf (items : List String) : List IncludedFeature :=
  includedFeaturesAux 0 items

structure PlanDetails where
  price : Option String
  beds : Option String
  baths : Option String
  sqft : Option String
  status : String
  image_url : Option String
deriving DecidableEq, Repr

structure HomePlan where
  name : Option String
  url : Option String
  details : PlanDetails
  includedFeatures : List IncludedFeature
  floorplan_images : List String
deriving DecidableEq, Repr

/-- One card of the home-plans panel, as the DOM provides it: the title link
(raw anchor text and `href`) when present, the image anchor's
`data-desktop-image` attribute, the URL extracted by the `url('...')` regex
from its `style` attribute when the attribute is truthy and matches, the raw
price text, the feature-list item texts and the highlights item texts. -/
structure HomePlanCard where
  titleLink : Option (String × String)
  imageDataDesktop : Option String
  imageStyleUrl : Option String
  priceText : Option String
  featureTexts : List String
  highlightTexts : List String
deriving DecidableEq, Repr

/-- Body of the per-plan loop (source lines 249-319).  `none` models an
exception caught by the per-plan `except` (only the feature loop can raise).
Field assignments are order-independent, so the record is built in one
literal. -/
def parse_homeplan_card (card : HomePlanCard) : Option HomePlan :=
  (card.featureTexts.foldlM parse_feature_item ⟨none, none, none⟩).map fun fs =>
    { name :=
        match card.titleLink with
        | some (t, _) => clean_text (some t)
        | none => none,
      url :=
        match card.titleLink with
        | some (_, href) => some ("https://www.ashtonwoods.com" ++ href)
        | none => none,
      details :=
        { price := parse_price_text card.priceText,
          beds := fs.beds, baths := fs.baths, sqft := fs.sqft,
          status := "Actively selling",
          image_url :=
            if pyTruthy card.imageDataDesktop then card.imageDataDesktop
            else card.imageStyleUrl },
      includedFeatures := includedFeaturesOf card.highlightTexts,
      floorplan_images := [] }

/-- The emission check of the per-plan loop (source lines 321-323):
`if plan_data["name"] and plan_data["url"]`. -/
def emit_homeplan (card : HomePlanCard) : Option HomePlan :=
  match parse_homeplan_card card with
  | none => none
  | some p => if pyTruthy p.name && pyTruthy p.url then some p else none

/-- `parse_homeplans` (source lines 238-329) over the cards of the panel. -/
def parse_homeplans : List HomePlanCard → List HomePlan
  | [] => []
  | c :: cs =>
    match emit_homeplan c with
    | some p => p :: parse_homeplans cs
    | none => parse_homeplans cs

/-- The hardcoded fallback latitude 33.3539 (Laveen, AZ). -/
def laveenLatitude : ℚ := Rat.mk' 333539 10000 (by decide) (by decide)

/-- The hardcoded fallback longitude -112.1597. -/
def laveenLongitude : ℚ := Rat.mk' (-1121597) 10000 (by decide) (by decide)

structure Homesite where
  name : Option String
  plan : Option String
  id : String
  address : Option String
  price : Option String
  beds : Option String
  baths : Option String
  sqft : Option String
  status : String
  image_url : Option String
  url : Option String
  latitude : Option ℚ
  longitude : Option ℚ
  overview : Option String
  images : List String
deriving DecidableEq, Repr

/-- One card of the quick-move-ins panel.  `detailPage` is what navigating to
the card's detail URL renders; `geocode` is what `get_coordinates` returns for
the reconstructed address (`none` for the `(None, None)` failure result). -/
structure HomesiteCard where
  titleLink : Option (String × String)
  detailPage : DetailPage
  geocode : Option (ℚ × ℚ)
  priceText : Option String
  featureTexts : List String
  overviewText : Option String
deriving DecidableEq, Repr

/-- Body of the per-homesite loop (source lines 423-514).  `none` models an
exception caught by the per-site `except` (only the feature loop can raise).
`name`, `address` and the coordinates are assigned only inside the
`len(address_parts) >= 4` branch; coordinates fall back to the fixed
community coordinates when geocoding fails or returns a falsy component. -/
def parse_homesite_card (idx : Nat) (card : HomesiteCard) : Option Homesite :=
  (card.featureTexts.foldlM parse_feature_item ⟨none, none, none⟩).map fun fs =>
    match card.titleLink with
    | none =>
      { name := none, plan := none, id := toString idx, address := none,
        price := parse_price_text card.priceText,
        beds := fs.beds, baths := fs.baths, sqft := fs.sqft,
        status := "Move-in Ready", image_url := none, url := none,
        latitude := none, longitude := none,
        overview :=
          match card.overviewText with
          | none => none
          | some r => clean_text (some r),
        images := [] }
    | some (t, href) =>
      let url := "https://www.ashtonwoods.com" ++ href
      let detail_images := get_homesite_images card.detailPage
      let an := parse_homesite_address url
      { name := an.map Prod.snd,
        plan := clean_text (some t),
        id := toString idx,
        address := an.map Prod.fst,
        price := parse_price_text card.priceText,
        beds := fs.beds, baths := fs.baths, sqft := fs.sqft,
        status := "Move-in Ready",
        image_url := if detail_images.isEmpty then none else detail_images.head?,
        url := some url,
        latitude :=
          match an with
          | none => none
          | some _ =>
            match card.geocode with
            | some (la, lo) => if la ≠ 0 ∧ lo ≠ 0 then some la else some laveenLatitude
            | none => some laveenLatitude,
        longitude :=
          match an with
          | none => none
          | some _ =>
            match card.geocode with
            | some (la, lo) => if la ≠ 0 ∧ lo ≠ 0 then some lo else some laveenLongitude
            | none => some laveenLongitude,
        overview :=
          match card.overviewText with
          | none => none
          | some r => clean_text (some r),
        images := if detail_images.isEmpty then [] else detail_images }

/-- The emission check of the per-homesite loop (source lines 516-518):
`if home_data["name"] and home_data["url"]`. -/
def emit_homesite (idx : Nat) (card : HomesiteCard) : Option Homesite :=
  match parse_homesite_card idx card with
  | none => none
  | some h => if pyTruthy h.name && pyTruthy h.url then some h else none

/-- The `enumerate(home_elements, 1)` loop of `parse_homesites`. -/
def parse_homesites_from (idx : Nat) : List HomesiteCard → List Homesite
  | [] => []
  | c :: cs =>
    match emit_homesite idx c with
    | some h => h :: parse_homesites_from (idx + 1) cs
    | none => parse_homesites_from (idx + 1) cs

/-- `parse_homesites` (source lines 413-524). -/
def parse_homesites (cards : List HomesiteCard) : List Homesite :=
  parse_homesites_from 1 cards

structure Amenity where
  name : Option String
  description : Option String
  icon_url : Option String
deriving DecidableEq, Repr

/-- `parse_amenities` (source lines 526-544) over the matched text nodes. -/
def parse_amenities (texts : List String) : List Amenity :=
  texts.map fun t => ⟨clean_text (some t), clean_text (some t), none⟩

structure NearbyPlace where
  name : String
deriving DecidableEq, Repr

/-- `parse_nearby_places` (source lines 546-549): always empty. -/
def parse_nearby_places : List NearbyPlace := []

structure Collection where
  name : String
  id : String
  isActive : Bool
  nearbySchools : List String
deriving DecidableEq, Repr

/-- `parse_collections` (source lines 551-570): a static placeholder list. -/
def parse_collections : List Collection :=
  [{ name := "Estates at Estrella Crossing", id := "0", isActive := true, nearbySchools := [] }]

/-- The `address` sub-dict of the `location` value (source lines 141-145). -/
structure LocAddress where
  city : String
  state : String
  market : String
deriving DecidableEq, Repr

/-- The `location` value (source lines 138-146). -/
structure LocationInfo where
  latitude : ℚ
  longitude : ℚ
  address : LocAddress
deriving DecidableEq, Repr

/-- The `details` value (source lines 215-222). -/
structure DetailsDict where
  price_range : Option String
  sqft_range : Option String
  bed_range : Option String
  bath_range : Option String
  stories_range : String
  community_count : Nat
deriving DecidableEq, Repr

/-- Values stored in the community record dict. -/
inductive Val where
  | null
  | vstr (s : String)
  | vstrList (xs : List String)
  | vplans (xs : List HomePlan)
  | vsites (xs : List Homesite)
  | vamens (xs : List Amenity)
  | vcolls (xs : List Collection)
  | vnearby (xs : List NearbyPlace)
  | vloc (l : LocationInfo)
  | vdetails (d : DetailsDict)
deriving DecidableEq, Repr

/-- A possibly-`None` string value as stored in the dict. -/
def optVal : Option String → Val
  | none => Val.null
  | some s => Val.vstr s

/-- Read an optional string back out of a dict value. -/
def valToOptStr : Val → Option String
  | Val.vstr s => some s
  | _ => none

/-- The rendered community page, as `parse_community_data` consumes it:
each field is the result of the corresponding `soup` query.  `priceText` is
the text node matched by `re.compile(r'Plans from \$[\d,]+')`, `none` when no
text on the page matches; `addressBlock` is as in `parse_address`;
`carouselSlides` lists the `data-desktop-image` attributes of the
`image-content__slide` elements; `descFirstP` is the text of the first `p` of
the exact-class description container chain when it exists. -/
structure Page where
  now : String
  url : String
  h1Text : Option String
  priceText : Option String
  addressBlock : Option (List String)
  phoneText : Option String
  descFirstP : Option String
  carouselSlides : List (Option String)
  planCards : List HomePlanCard
  siteCards : List HomesiteCard
  amenityTexts : List String
deriving DecidableEq, Repr

/-- `[h["sqft"] for h in homesites if h.get("sqft")]` (source line 202). -/
def site_sqft_values (sites : List Homesite) : List String :=
  sites.filterMap fun h => if pyTruthy h.sqft then h.sqft else none

/-- `[h["beds"] for h in homesites if h.get("beds")]` (source line 203). -/
def site_bed_values (sites : List Homesite) : List String :=
  sites.filterMap fun h => if pyTruthy h.beds then h.beds else none

/-- The bath strings of source line 204, before their `float()` conversion. -/
def site_bath_values (sites : List Homesite) : List String :=
  sites.filterMap fun h => if pyTruthy h.baths then h.baths else none

/-- Homeplan fallback values for sqft (source line 208). -/
def plan_sqft_values (plans : List HomePlan) : List String :=
  plans.filterMap fun p => if pyTruthy p.details.sqft then p.details.sqft else none

/-- Homeplan fallback values for beds (source line 210). -/
def plan_bed_values (plans : List HomePlan) : List String :=
  plans.filterMap fun p => if pyTruthy p.details.beds then p.details.beds else none

/-- Homeplan fallback bath strings (source line 212), before `float()`. -/
def plan_bath_values (plans : List HomePlan) : List String :=
  plans.filterMap fun p => if pyTruthy p.details.baths then p.details.baths else none

/-- Source lines 202 and 207-208: homesite sqft values, or the homeplan ones
when the homesite list is empty. -/
def sqft_values_used (sites : List Homesite) (plans : List HomePlan) : List String :=
  let v := site_sqft_values sites
  if v.isEmpty then plan_sqft_values plans else v

/-- Source lines 203 and 209-210. -/
def bed_values_used (sites : List Homesite) (plans : List HomePlan) : List String :=
  let v := site_bed_values sites
  if v.isEmpty then plan_bed_values plans else v

/-- `[float(v) for v in l]`, `none` when any conversion raises. -/
def floatList : List String → Option (List ℚ)
  | [] => some []
  | s :: rest =>
    match pyFloatQ s with
    | none => none
    | some q => (floatList rest).map fun qs => q :: qs

/-- Source lines 204 and 211-212: homesite bath values converted by `float()`
at once; the homeplan fallback (also through `float()`) when the converted
list is empty. -/
def bath_values_chain (sites : List Homesite) (plans : List HomePlan) : Option (List ℚ) :=
  match floatList (site_bath_values sites) with
  | none => none
  | some v => if v.isEmpty then floatList (plan_bath_values plans) else some v

/-- Source lines 191-231 after `homesites` is assigned: the fields appended to
the record once the fallible steps succeed.  `none` models any of the
exceptions the enclosing `try` catches there: the `KeyError` on
`data["price_from"]` (line 216) when that key was never assigned, and the
`float()` conversions (lines 194, 204, 212).  All of them abort before any of
these four keys is inserted. -/
def assemble_tail (d : List (String × Val)) (pg : Page) (homesites : List Homesite)
    (homeplans : List HomePlan) : Option (List (String × Val)) :=
  match bath_values_chain homesites homeplans with
  | none => none
  | some bathQ =>
    match d.lookup "price_from" with
    | none => none
    | some pf =>
      match floatList (sqft_values_used homesites homeplans) with
      | none => none
      | some sqftQ =>
        match floatList (bed_values_used homesites homeplans) with
        | none => none
        | some bedQ =>
          some [("details", Val.vdetails
                  { price_range := valToOptStr pf,
                    sqft_range := get_range_from_values (sqftQ.map some),
                    bed_range := get_range_from_values (bedQ.map some),
                    bath_range := get_range_from_values (bathQ.map some),
                    stories_range := "1 - 2",
                    community_count := 1 }),
                ("amenities", Val.vamens (parse_amenities pg.amenityTexts)),
                ("nearbyplaces", Val.vnearby parse_nearby_places),
                ("collections", Val.vcolls parse_collections)]

/-- The record as built by source lines 107-188: the keys inserted before the
fallible range/details steps.  `price_from` is inserted only when a text node
matched the `Plans from $` pattern (lines 128-131). -/
def community_base (pg : Page) : List (String × Val) :=
  let d0 : List (String × Val) :=
    [("timestamp", Val.vstr pg.now), ("url", Val.vstr pg.url),
     ("builder", Val.vstr "Ashton Woods"), ("status", Val.null)]
  let nameV : Option String :=
    match pg.h1Text with
    | some t => clean_text (some t)
    | none => none
  let d1 := d0 ++ [("name", optVal nameV)]
  let d2 :=
    match pg.priceText with
    | some t => d1 ++ [("price_from", optVal (extract_price_range t))]
    | none => d1
  let addr := parse_address pg.addressBlock
  let homeplans := parse_homeplans pg.planCards
  let homesites := parse_homesites pg.siteCards
  let imgs0 : List String :=
    match pg.carouselSlides.findSome? (fun a =>
      match a with
      | some s => if s = "" then none else some s
      | none => none) with
    | some u => [u]
    | none => []
  let images : List String :=
    if imgs0.isEmpty then
      match homeplans.findSome? (fun p =>
        if pyTruthy p.details.image_url then p.details.image_url else none) with
      | some u => [u]
      | none =>
        match homesites.findSome? (fun h =>
          if pyTruthy h.image_url then h.image_url else none) with
        | some u => [u]
        | none => []
    else imgs0
  d2 ++ [("address", Val.vstr addr.full_address),
         ("location", Val.vloc
           { latitude := laveenLatitude, longitude := laveenLongitude,
             address := { city := addr.city, state := addr.state, market := addr.market } }),
         ("phone", optVal
           (match pg.phoneText with
            | some t => clean_text (some t)
            | none => none)),
         ("description", optVal
           (match pg.descFirstP with
            | some t => clean_text (some t)
            | none => none)),
         ("images", Val.vstrList images),
         ("homeplans", Val.vplans homeplans),
         ("homesites", Val.vsites homesites)]

/-- `parse_community_data` (source lines 105-236): the record that the
function returns (and that `process_community_url` then writes out).  When
the tail steps raise, the top-level `except` (lines 233-235) logs and the
partial record is returned unchanged. -/
def parse_community_data (pg : Page) : List (String × Val) :=
  match assemble_tail (community_base pg) pg (parse_homesites pg.siteCards)
      (parse_homeplans pg.planCards) with
  | some tail => community_base pg ++ tail
  | none => community_base pg

theorem length_dropWhile_le {α} (p : α → Bool) (l : List α) :
    (l.dropWhile p).length ≤ l.length := by
  induction l with
  | nil => simp [List.dropWhile]
  | cons a as ih =>
    cases h : p a
    · simp [List.dropWhile, h]
    · simp [List.dropWhile, h]
      omega

theorem wordsAux_eq : ∀ (n m : Nat) (l : List Char), l.length ≤ n → l.length ≤ m →
    wordsAux n l = wordsAux m l := by
  intro n
  induction n with
  | zero =>
    intro m l hn _
    cases l with
    | nil => cases m <;> rfl
    | cons c cs => simp at hn
  | succ n ih =>
    intro m l hn hm
    cases l with
    | nil => cases m <;> rfl
    | cons c cs =>
      cases m with
      | zero => simp at hm
      | succ m =>
        have hn' : cs.length ≤ n := by simp at hn; omega
        have hm' : cs.length ≤ m := by simp at hm; omega
        cases hc : isWs c
        · simp only [wordsAux, hc, Bool.false_eq_true, if_false]
          have hd := length_dropWhile_le (fun x => !isWs x) cs
          rw [ih m (cs.dropWhile (fun x => !isWs x)) (by omega) (by omega)]
        · simp only [wordsAux, hc, if_true]
          exact ih m cs hn' hm'

theorem wordsLoop_nil : wordsLoop [] = [] := rfl

theorem wordsLoop_ws {c : Char} {cs : List Char} (h : isWs c = true) :
    wordsLoop (c :: cs) = wordsLoop cs := by
  show wordsAux (cs.length + 1) (c :: cs) = wordsLoop cs
  simp only [wordsAux, h, if_true]
  rfl

theorem wordsLoop_word {c : Char} {cs : List Char} (h : isWs c = false) :
    wordsLoop (c :: cs) =
      (c :: cs.takeWhile (fun x => !isWs x)) :: wordsLoop (cs.dropWhile (fun x => !isWs x)) := by
  show wordsAux (cs.length + 1) (c :: cs) = _
  simp only [wordsAux, h, Bool.false_eq_true, if_false]
  congr 1
  exact wordsAux_eq cs.length _ _ (length_dropWhile_le _ _) le_rfl

theorem wordsLoop_all_ws : ∀ {l : List Char}, (∀ c ∈ l, isWs c = true) → wordsLoop l = [] := by
  intro l
  induction l with
  | nil => intro _; rfl
  | cons c cs ih =>
    intro h
    rw [wordsLoop_ws (h c (by simp))]
    exact ih fun x hx => h x (by simp [hx])

theorem wordsLoop_eq_nil_iff {l : List Char} :
    wordsLoop l = [] ↔ ∀ c ∈ l, isWs c = true := by
  constructor
  · induction l with
    | nil => intro _; simp
    | cons c cs ih =>
      intro h
      cases hc : isWs c
      · rw [wordsLoop_word hc] at h
        exact absurd h (by simp)
      · rw [wordsLoop_ws hc] at h
        intro x hx
        rcases List.mem_cons.mp hx with rfl | hx
        · exact hc
        · exact ih h x hx
  · exact wordsLoop_all_ws

theorem wordsLoop_good_aux : ∀ (n : Nat) (l : List Char), l.length ≤ n →
    ∀ w ∈ wordsLoop l, w ≠ [] ∧ ∀ c ∈ w, isWs c = false := by
  intro n
  induction n with
  | zero =>
    intro l hl
    cases l with
    | nil => simp [wordsLoop_nil]
    | cons c cs => simp at hl
  | succ n ih =>
    intro l hl
    cases l with
    | nil => simp [wordsLoop_nil]
    | cons c cs =>
      have hcs : cs.length ≤ n := by simp at hl; omega
      cases hc : isWs c
      · rw [wordsLoop_word hc]
        intro w hw
        rcases List.mem_cons.mp hw with rfl | hw
        · refine ⟨by simp, ?_⟩
          intro x hx
          rcases List.mem_cons.mp hx with rfl | hx
          · exact hc
          · have hx' := List.mem_takeWhile_imp hx
            simpa using hx'
        · have hd := length_dropWhile_le (fun x => !isWs x) cs
          exact ih (cs.dropWhile (fun x => !isWs x)) (by omega) w hw
      · rw [wordsLoop_ws hc]
        exact ih cs hcs

theorem wordsLoop_good (l : List Char) :
    ∀ w ∈ wordsLoop l, w ≠ [] ∧ ∀ c ∈ w, isWs c = false :=
  wordsLoop_good_aux l.length l le_rfl

theorem takeWhile_prefix_append {p : Char → Bool} (b : Char) (r : List Char) (hb : p b = false) :
    ∀ (xs : List Char), (∀ c ∈ xs, p c = true) → (xs ++ b :: r).takeWhile p = xs := by
  intro xs
  induction xs with
  | nil => intro _; simp [List.takeWhile_cons, hb]
  | cons a as ih =>
    intro hxs
    have ha := hxs a (by simp)
    simp only [List.cons_append, List.takeWhile_cons, ha, if_true]
    rw [ih fun c hc => hxs c (by simp [hc])]

theorem dropWhile_prefix_append {p : Char → Bool} (b : Char) (r : List Char) (hb : p b = false) :
    ∀ (xs : List Char), (∀ c ∈ xs, p c = true) → (xs ++ b :: r).dropWhile p = b :: r := by
  intro xs
  induction xs with
  | nil => intro _; simp [List.dropWhile_cons, hb]
  | cons a as ih =>
    intro hxs
    have ha := hxs a (by simp)
    simp only [List.cons_append, List.dropWhile_cons, ha, if_true]
    exact ih fun c hc => hxs c (by simp [hc])

theorem wordsLoop_append_ws_aux : ∀ (n : Nat) (l t : List Char), l.length ≤ n →
    (∀ c ∈ t, isWs c = true) → wordsLoop (l ++ t) = wordsLoop l := by
  intro n
  induction n with
  | zero =>
    intro l t hl ht
    cases l with
    | nil => simp [wordsLoop_nil, wordsLoop_all_ws ht]
    | cons c cs => simp at hl
  | succ n ih =>
    intro l t hl ht
    cases l with
    | nil => simp [wordsLoop_nil, wordsLoop_all_ws ht]
    | cons c cs =>
      have hcs : cs.length ≤ n := by simp at hl; omega
      cases hc : isWs c
      · rw [List.cons_append, wordsLoop_word hc, wordsLoop_word hc]
        have htake : ∀ (u : List Char),
            (u ++ t).takeWhile (fun x => !isWs x) = u.takeWhile (fun x => !isWs x) := by
          intro u
          induction u with
          | nil =>
            cases t with
            | nil => rfl
            | cons b r =>
              have hb : isWs b = true := ht b (by simp)
              simp [List.takeWhile_cons, hb]
          | cons a as iha =>
            cases ha : isWs a
            · simp only [List.cons_append, List.takeWhile_cons, ha, Bool.not_false, if_true]
              rw [iha]
            · simp [List.takeWhile_cons, ha]
        have hdrop : ∀ (s : List Char), s.length ≤ cs.length →
            wordsLoop ((s ++ t).dropWhile (fun x => !isWs x)) =
            wordsLoop (s.dropWhile (fun x => !isWs x)) := by
          intro s
          induction s with
          | nil =>
            intro _
            cases t with
            | nil => rfl
            | cons b r =>
              have hb : isWs b = true := ht b (by simp)
              simp only [List.nil_append, List.dropWhile_cons, hb, Bool.not_true,
                Bool.false_eq_true, if_false, List.dropWhile_nil]
              rw [wordsLoop_all_ws ht, wordsLoop_nil]
          | cons a as iha =>
            intro hs
            cases ha : isWs a
            · simp only [List.cons_append, List.dropWhile_cons, ha, Bool.not_false, if_true]
              exact iha (by simp at hs; omega)
            · simp only [List.cons_append, List.dropWhile_cons, ha, Bool.not_true,
                Bool.false_eq_true, if_false]
              rw [wordsLoop_ws ha, wordsLoop_ws ha]
              exact ih as t (by simp at hs; omega) ht
        rw [htake cs]
        congr 1
        exact hdrop cs le_rfl
      · rw [List.cons_append, wordsLoop_ws hc, wordsLoop_ws hc]
        exact ih cs t hcs ht

theorem wordsLoop_append_ws {l t : List Char} (ht : ∀ c ∈ t, isWs c = true) :
    wordsLoop (l ++ t) = wordsLoop l :=
  wordsLoop_append_ws_aux l.length l t le_rfl ht

theorem wordsLoop_dropWhile : ∀ (l : List Char), wordsLoop (l.dropWhile isWs) = wordsLoop l := by
  intro l
  induction l with
  | nil => rfl
  | cons c cs ih =>
    cases hc : isWs c
    · simp [List.dropWhile_cons, hc]
    · simp only [List.dropWhile_cons, hc, if_true]
      rw [wordsLoop_ws hc]
      exact ih

theorem wordsLoop_strip (l : List Char) : wordsLoop (pyStripChars l) = wordsLoop l := by
  have h0 : (l.dropWhile isWs).reverse
      = (l.dropWhile isWs).reverse.takeWhile isWs ++ (l.dropWhile isWs).reverse.dropWhile isWs :=
    (List.takeWhile_append_dropWhile isWs (l.dropWhile isWs).reverse).symm
  have h2 : l.dropWhile isWs
      = ((l.dropWhile isWs).reverse.dropWhile isWs).reverse
        ++ ((l.dropWhile isWs).reverse.takeWhile isWs).reverse := by
    calc l.dropWhile isWs = (l.dropWhile isWs).reverse.reverse := (List.reverse_reverse _).symm
      _ = ((l.dropWhile isWs).reverse.takeWhile isWs
            ++ (l.dropWhile isWs).reverse.dropWhile isWs).reverse := by rw [← h0]
      _ = ((l.dropWhile isWs).reverse.dropWhile isWs).reverse
            ++ ((l.dropWhile isWs).reverse.takeWhile isWs).reverse := by
          rw [List.reverse_append]
  have hws : ∀ c ∈ ((l.dropWhile isWs).reverse.takeWhile isWs).reverse, isWs c = true := by
    intro c hc
    rw [List.mem_reverse] at hc
    exact List.mem_takeWhile_imp hc
  calc wordsLoop (pyStripChars l)
      = wordsLoop (((l.dropWhile isWs).reverse.dropWhile isWs).reverse) := rfl
    _ = wordsLoop (l.dropWhile isWs) := by
        conv_rhs => rw [h2]
        exact (wordsLoop_append_ws hws).symm
    _ = wordsLoop l := wordsLoop_dropWhile l

theorem wordsLoop_joinWords : ∀ (ws : List (List Char)),
    (∀ w ∈ ws, w ≠ [] ∧ ∀ c ∈ w, isWs c = false) → wordsLoop (joinWords ws) = ws := by
  intro ws
  induction ws with
  | nil => intro _; rfl
  | cons w rest ih =>
    intro hgood
    obtain ⟨hne, hfree⟩ := hgood w (by simp)
    cases w with
    | nil => exact absurd rfl hne
    | cons c cs =>
      have hc : isWs c = false := hfree c (by simp)
      have hcs : ∀ x ∈ cs, (fun x => !isWs x) x = true := by
        intro x hx
        simp [hfree x (by simp [hx])]
      cases rest with
      | nil =>
        show wordsLoop (c :: cs) = [c :: cs]
        rw [wordsLoop_word hc]
        rw [List.takeWhile_eq_self_iff.mpr hcs]
        rw [List.dropWhile_eq_nil_iff.mpr hcs]
        rw [wordsLoop_nil]
      | cons v rest' =>
        show wordsLoop ((c :: cs) ++ ' ' :: joinWords (v :: rest')) = (c :: cs) :: v :: rest'
        rw [List.cons_append, wordsLoop_word hc]
        rw [takeWhile_prefix_append ' ' (joinWords (v :: rest')) (by decide) cs hcs]
        rw [dropWhile_prefix_append ' ' (joinWords (v :: rest')) (by decide) cs hcs]
        rw [wordsLoop_ws (show isWs ' ' = true by decide)]
        rw [ih fun u hu => hgood u (by simp [hu])]

theorem joinWords_cons_exists (v : List Char) (rest : List (List Char)) :
    ∃ tail, joinWords (v :: rest) = v ++ tail := by
  cases rest with
  | nil => exact ⟨[], by simp [joinWords]⟩
  | cons u us => exact ⟨' ' :: joinWords (u :: us), rfl⟩

theorem joinWords_ne_nil {w : List Char} {rest : List (List Char)} (hne : w ≠ []) :
    joinWords (w :: rest) ≠ [] := by
  obtain ⟨tail, htail⟩ := joinWords_cons_exists w rest
  rw [htail]
  cases w with
  | nil => exact absurd rfl hne
  | cons c cs => simp

theorem joinWords_ws_space : ∀ (ws : List (List Char)),
    (∀ w ∈ ws, ∀ c ∈ w, isWs c = false) →
    ∀ c ∈ joinWords ws, isWs c = true → c = ' ' := by
  intro ws
  induction ws with
  | nil => intro _ c hc; simp [joinWords] at hc
  | cons w rest ih =>
    intro hgood c hc hws
    cases rest with
    | nil =>
      have hcw : c ∈ w := hc
      exact absurd hws (by simp [hgood w (by simp) c hcw])
    | cons v rest' =>
      have hc' : c ∈ w ++ ' ' :: joinWords (v :: rest') := hc
      rcases List.mem_append.mp hc' with h | h
      · exact absurd hws (by simp [hgood w (by simp) c h])
      · rcases List.mem_cons.mp h with rfl | h
        · rfl
        · exact ih (fun u hu => hgood u (by simp [hu])) c h hws

theorem noTwoAdjWs_cons_of {a : Char} {m : List Char} (ha : isWs a = false)
    (hm : noTwoAdjWs m = true) : noTwoAdjWs (a :: m) = true := by
  cases m with
  | nil => rfl
  | cons b r => simp [noTwoAdjWs, ha, hm]

theorem noTwoAdjWs_append_word : ∀ (w m : List Char), (∀ c ∈ w, isWs c = false) →
    noTwoAdjWs m = true → noTwoAdjWs (w ++ m) = true := by
  intro w
  induction w with
  | nil => intro m _ hm; simpa using hm
  | cons a as ih =>
    intro m hfree hm
    have has : noTwoAdjWs (as ++ m) = true := ih m (fun c hc => hfree c (by simp [hc])) hm
    exact noTwoAdjWs_cons_of (hfree a (by simp)) has

theorem joinWords_noTwoAdjWs : ∀ (ws : List (List Char)),
    (∀ w ∈ ws, w ≠ [] ∧ ∀ c ∈ w, isWs c = false) → noTwoAdjWs (joinWords ws) = true := by
  intro ws
  induction ws with
  | nil => intro _; rfl
  | cons w rest ih =>
    intro hgood
    cases rest with
    | nil =>
      show noTwoAdjWs w = true
      have hw := noTwoAdjWs_append_word w [] (hgood w (by simp)).2 rfl
      simpa using hw
    | cons v rest' =>
      show noTwoAdjWs (w ++ ' ' :: joinWords (v :: rest')) = true
      apply noTwoAdjWs_append_word w _ (hgood w (by simp)).2
      obtain ⟨tail, htail⟩ := joinWords_cons_exists v rest'
      have hvne : v ≠ [] := (hgood v (by simp)).1
      have hrec : noTwoAdjWs (joinWords (v :: rest')) = true :=
        ih fun u hu => hgood u (by simp [hu])
      cases v with
      | nil => exact absurd rfl hvne
      | cons b vs =>
        have hb : isWs b = false := (hgood (b :: vs) (by simp)).2 b (by simp)
        rw [htail]
        show noTwoAdjWs (' ' :: b :: (vs ++ tail)) = true
        have hbt : noTwoAdjWs (b :: (vs ++ tail)) = true := by
          rw [show b :: (vs ++ tail) = (b :: vs) ++ tail from rfl, ← htail]
          exact hrec
        simp [noTwoAdjWs, hb, hbt]

theorem joinWords_getLast?_nonws : ∀ (ws : List (List Char)),
    (∀ w ∈ ws, w ≠ [] ∧ ∀ c ∈ w, isWs c = false) →
    ∀ c, (joinWords ws).getLast? = some c → isWs c = false := by
  intro ws
  induction ws with
  | nil => intro _ c hc; simp [joinWords] at hc
  | cons w rest ih =>
    intro hgood c hc
    cases rest with
    | nil =>
      have hc' : w.getLast? = some c := hc
      obtain ⟨h', heq⟩ := List.mem_getLast?_eq_getLast hc'
      exact (hgood w (by simp)).2 c (heq ▸ List.getLast_mem h')
    | cons v rest' =>
      have hne : joinWords (v :: rest') ≠ [] := joinWords_ne_nil (hgood v (by simp)).1
      have hstep : (joinWords (w :: v :: rest')).getLast? = (joinWords (v :: rest')).getLast? := by
        show (w ++ ' ' :: joinWords (v :: rest')).getLast? = _
        rw [List.getLast?_append_cons]
        cases hj : joinWords (v :: rest') with
        | nil => exact absurd hj hne
        | cons b t => rw [List.getLast?_cons_cons]
      rw [hstep] at hc
      exact ih (fun u hu => hgood u (by simp [hu])) c hc

/-- C10 (amended): `clean_text` returns the absent marker for missing or empty
input; for non-empty input it returns the whitespace-collapsed, trimmed text
(same word sequence, only single plain spaces inside, no leading or trailing
whitespace).  The result is the empty string exactly when the input is
non-empty but consists of whitespace only — so, contrary to the original
claim, the result can be the empty string. -/
theorem claim_C10_clean_text : ∀ s : String,
    clean_text none = none ∧
    clean_text (some "") = none ∧
    (s ≠ "" →
      ∃ r : String,
        clean_text (some s) = some r ∧
        wordsLoop r.data = wordsLoop s.data ∧
        (∀ c ∈ r.data, isWs c = true → c = ' ') ∧
        noTwoAdjWs r.data = true ∧
        (∀ c, r.data.head? = some c → isWs c = false) ∧
        (∀ c, r.data.getLast? = some c → isWs c = false) ∧
        (r = "" ↔ ∀ c ∈ s.data, isWs c = true)) := by
  intro s
  refine ⟨rfl, rfl, fun hs => ?_⟩
  have hgood := wordsLoop_good (pyStripChars s.data)
  have hstrip : wordsLoop (pyStripChars s.data) = wordsLoop s.data := wordsLoop_strip s.data
  refine ⟨String.mk (joinWords (wordsLoop (pyStripChars s.data))), ?_, ?_, ?_, ?_, ?_, ?_, ?_⟩
  · simp [clean_text, hs]
  · show wordsLoop (joinWords (wordsLoop (pyStripChars s.data))) = wordsLoop s.data
    rw [wordsLoop_joinWords _ hgood, hstrip]
  · show ∀ c ∈ joinWords (wordsLoop (pyStripChars s.data)), isWs c = true → c = ' '
    exact joinWords_ws_space _ fun w hw => (hgood w hw).2
  · show noTwoAdjWs (joinWords (wordsLoop (pyStripChars s.data))) = true
    exact joinWords_noTwoAdjWs _ hgood
  · show ∀ c, (joinWords (wordsLoop (pyStripChars s.data))).head? = some c → isWs c = false
    cases hws : wordsLoop (pyStripChars s.data) with
    | nil => intro c hc; simp [joinWords] at hc
    | cons w rest =>
      have hwg := hgood w (by rw [hws]; simp)
      obtain ⟨tail, htail⟩ := joinWords_cons_exists w rest
      rw [htail]
      cases w with
      | nil => exact absurd rfl hwg.1
      | cons c₀ cs₀ =>
        intro c hc
        simp only [List.cons_append, List.head?_cons, Option.some.injEq] at hc
        subst hc
        exact hwg.2 c₀ (by simp)
  · show ∀ c, (joinWords (wordsLoop (pyStripChars s.data))).getLast? = some c → isWs c = false
    exact joinWords_getLast?_nonws _ hgood
  · show String.mk (joinWords (wordsLoop (pyStripChars s.data))) = "" ↔ ∀ c ∈ s.data, isWs c = true
    have hdata : (String.mk (joinWords (wordsLoop (pyStripChars s.data))) = "") ↔
        joinWords (wordsLoop (pyStripChars s.data)) = [] := by
      constructor
      · intro h
        exact congrArg String.data h
      · intro h
        rw [h]
    rw [hdata]
    constructor
    · intro hjoin
      cases hws : wordsLoop (pyStripChars s.data) with
      | nil =>
        have h1 : wordsLoop s.data = [] := by rw [← hstrip]; exact hws
        exact wordsLoop_eq_nil_iff.mp h1
      | cons w rest =>
        rw [hws] at hjoin
        exact absurd hjoin (joinWords_ne_nil (hgood w (by rw [hws]; simp)).1)
    · intro hall
      have : wordsLoop s.data = [] := wordsLoop_all_ws hall
      rw [hstrip, this]
      rfl

/-- C10 counterexample: on the non-empty, all-whitespace input `" "`,
`clean_text` returns the empty string (`' '.join('   '.split()) == ''`), not
the absent marker — refuting "its result is never the empty string". -/
theorem claim_C10_counterexample : clean_text (some " ") = some "" := by decide

/-- C10 witness: the amended theorem instantiated at `" a  b "`. -/
theorem claim_C10_witness :
    ∃ r : String,
      clean_text (some " a  b ") = some r ∧
      wordsLoop r.data = wordsLoop " a  b ".data ∧
      (∀ c ∈ r.data, isWs c = true → c = ' ') ∧
      noTwoAdjWs r.data = true ∧
      (∀ c, r.data.head? = some c → isWs c = false) ∧
      (∀ c, r.data.getLast? = some c → isWs c = false) ∧
      (r = "" ↔ ∀ c ∈ " a  b ".data, isWs c = true) :=
  (claim_C10_clean_text " a  b ").2.2 (by decide)

/-- C1: `extract_price_range` returns the absent marker when the text has no
token of the pattern `\$[\d,]+K?`; with exactly one match it returns
`"From {m}"`; with two or more it returns `"{m0}-{m1}"` built from the first
two matches in document order.  `"$300K"` gives `"From $300K"` and
`"$300K $450K"` gives `"$300K-$450K"`. -/
theorem claim_C1_extract_price_range : ∀ text : String,
    (findAllPrices text.data = [] → extract_price_range text = none) ∧
    (∀ m, findAllPrices text.data = [m] →
      extract_price_range text = some ("From " ++ String.mk m)) ∧
    (∀ m₀ m₁ rest, findAllPrices text.data = m₀ :: m₁ :: rest →
      extract_price_range text = some (String.mk m₀ ++ "-" ++ String.mk m₁)) ∧
    extract_price_range "$300K" = some "From $300K" ∧
    extract_price_range "$300K $450K" = some "$300K-$450K" := by
  intro text
  refine ⟨?_, ?_, ?_, by decide, by decide⟩
  · intro h
    by_cases ht : text = ""
    · simp [extract_price_range, ht]
    · simp [extract_price_range, ht, h]
  · intro m h
    have ht : text ≠ "" := by
      intro hteq
      rw [hteq] at h
      rw [show findAllPrices "".data = [] from by decide] at h
      exact absurd h (by simp)
    simp [extract_price_range, ht, h]
  · intro m₀ m₁ rest h
    have ht : text ≠ "" := by
      intro hteq
      rw [hteq] at h
      rw [show findAllPrices "".data = [] from by decide] at h
      exact absurd h (by simp)
    simp [extract_price_range, ht, h]

/-- C1 witness: a text with no currency token yields the absent marker. -/
theorem claim_C1_witness : extract_price_range "no price here" = none :=
  (claim_C1_extract_price_range "no price here").1 (by decide)

theorem foldl_min_le {α : Type} [LinearOrder α] :
    ∀ (xs : List α) (x y : α), y ∈ x :: xs → xs.foldl min x ≤ y := by
  intro xs
  induction xs with
  | nil =>
    intro x y hy
    simp at hy
    subst hy
    simp
  | cons a as ih =>
    intro x y hy
    rw [List.foldl_cons]
    have h1 : as.foldl min (min x a) ≤ min x a := ih (min x a) (min x a) (by simp)
    rcases List.mem_cons.mp hy with heq | hy'
    · rw [heq]
      exact le_trans h1 (min_le_left _ _)
    · rcases List.mem_cons.mp hy' with heq | hy''
      · rw [heq]
        exact le_trans h1 (min_le_right _ _)
      · exact ih (min x a) y (by simp [hy''])

theorem foldl_min_mem {α : Type} [LinearOrder α] :
    ∀ (xs : List α) (x : α), xs.foldl min x ∈ x :: xs := by
  intro xs
  induction xs with
  | nil => intro x; simp
  | cons a as ih =>
    intro x
    rw [List.foldl_cons]
    rcases List.mem_cons.mp (ih (min x a)) with h1 | h1
    · rcases min_choice x a with hc | hc
      · rw [h1, hc]; simp
      · rw [h1, hc]; simp
    · simp only [List.mem_cons] at h1 ⊢
      right
      right
      exact h1

theorem foldl_max_ge {α : Type} [LinearOrder α] :
    ∀ (xs : List α) (x y : α), y ∈ x :: xs → y ≤ xs.foldl max x := by
  intro xs
  induction xs with
  | nil =>
    intro x y hy
    simp at hy
    subst hy
    simp
  | cons a as ih =>
    intro x y hy
    rw [List.foldl_cons]
    have h1 : max x a ≤ as.foldl max (max x a) := ih (max x a) (max x a) (by simp)
    rcases List.mem_cons.mp hy with heq | hy'
    · rw [heq]
      exact le_trans (le_max_left _ _) h1
    · rcases List.mem_cons.mp hy' with heq | hy''
      · rw [heq]
        exact le_trans (le_max_right _ _) h1
      · exact ih (max x a) y (by simp [hy''])

theorem foldl_max_mem {α : Type} [LinearOrder α] :
    ∀ (xs : List α) (x : α), xs.foldl max x ∈ x :: xs := by
  intro xs
  induction xs with
  | nil => intro x; simp
  | cons a as ih =>
    intro x
    rw [List.foldl_cons]
    rcases List.mem_cons.mp (ih (max x a)) with h1 | h1
    · rcases max_choice x a with hc | hc
      · rw [h1, hc]; simp
      · rw [h1, hc]; simp
    · simp only [List.mem_cons] at h1 ⊢
      right
      right
      exact h1

/-- C2: `get_range_from_values` drops the `None` entries, returns the absent
marker when nothing remains, and otherwise formats `"{min}"` when the true
numeric minimum equals the maximum and `"{min} - {max}"` otherwise, where the
min and max bound every remaining value.  `[1800, 2200, 2200]` gives
`"1800 - 2200"`, the empty list gives the absent marker, `[2000]` gives
`"2000"`. -/
theorem claim_C2_get_range_from_values : ∀ values : List (Option ℚ),
    (values.filterMap id = [] → get_range_from_values values = none) ∧
    (∀ x xs, values.filterMap id = x :: xs →
      (xs.foldl min x) ∈ x :: xs ∧ (∀ y ∈ x :: xs, xs.foldl min x ≤ y) ∧
      (xs.foldl max x) ∈ x :: xs ∧ (∀ y ∈ x :: xs, y ≤ xs.foldl max x) ∧
      get_range_from_values values =
        (if xs.foldl min x = xs.foldl max x then some (toString (pyInt (xs.foldl min x)))
         else some (toString (pyInt (xs.foldl min x)) ++ " - " ++
                    toString (pyInt (xs.foldl max x))))) ∧
    get_range_from_values [some 1800, some 2200, some 2200] = some "1800 - 2200" ∧
    get_range_from_values [] = none ∧
    get_range_from_values [some 2000] = some "2000" := by
  intro values
  refine ⟨?_, ?_, by decide, by decide, by decide⟩
  · intro h
    by_cases hv : values.isEmpty
    · simp [get_range_from_values, hv]
    · simp [get_range_from_values, hv, h]
  · intro x xs h
    have hne : values.isEmpty = false := by
      cases hval : values with
      | nil => rw [hval] at h; simp at h
      | cons v vs => rfl
    refine ⟨foldl_min_mem xs x, fun y hy => foldl_min_le xs x y hy,
            foldl_max_mem xs x, fun y hy => foldl_max_ge xs x y hy, ?_⟩
    simp only [get_range_from_values, hne, Bool.false_eq_true, if_false, h]

/-- C2 witness: a list whose only entry is `None` yields the absent marker. -/
theorem claim_C2_witness : get_range_from_values [none] = none :=
  (claim_C2_get_range_from_values [none]).1 (by decide)

theorem floatList_length : ∀ {l : List String} {qs : List ℚ},
    floatList l = some qs → qs.length = l.length := by
  intro l
  induction l with
  | nil =>
    intro qs h
    simp [floatList] at h
    subst h
    rfl
  | cons s rest ih =>
    intro qs h
    simp only [floatList] at h
    cases hp : pyFloatQ s with
    | none => rw [hp] at h; simp at h
    | some q =>
      rw [hp] at h
      cases hr : floatList rest with
      | none => rw [hr] at h; simp at h
      | some qs' =>
        rw [hr] at h
        simp at h
        subst h
        simp [ih hr]

/-- C3: for each of the sqft/bed/bath fields, the DetailsSummary range values
are drawn from the homesites' own field values whenever that list is
non-empty, and from the homeplans' corresponding field only when the
homesite-derived list is entirely empty; within each field the used values
all come from a single one of the two collections. -/
theorem claim_C3_range_source_priority :
    ∀ (sites : List Homesite) (plans : List HomePlan),
    (site_sqft_values sites ≠ [] → sqft_values_used sites plans = site_sqft_values sites) ∧
    (site_sqft_values sites = [] → sqft_values_used sites plans = plan_sqft_values plans) ∧
    (site_bed_values sites ≠ [] → bed_values_used sites plans = site_bed_values sites) ∧
    (site_bed_values sites = [] → bed_values_used sites plans = plan_bed_values plans) ∧
    (site_bath_values sites ≠ [] →
      bath_values_chain sites plans = floatList (site_bath_values sites)) ∧
    (site_bath_values sites = [] →
      bath_values_chain sites plans = floatList (plan_bath_values plans)) ∧
    ((∀ v ∈ sqft_values_used sites plans, v ∈ site_sqft_values sites) ∨
     (∀ v ∈ sqft_values_used sites plans, v ∈ plan_sqft_values plans)) ∧
    ((∀ v ∈ bed_values_used sites plans, v ∈ site_bed_values sites) ∨
     (∀ v ∈ bed_values_used sites plans, v ∈ plan_bed_values plans)) := by
  intro sites plans
  refine ⟨?_, ?_, ?_, ?_, ?_, ?_, ?_, ?_⟩
  · intro h
    cases hsv : site_sqft_values sites with
    | nil => exact absurd hsv h
    | cons a as => simp [sqft_values_used, hsv]
  · intro h
    simp [sqft_values_used, h]
  · intro h
    cases hsv : site_bed_values sites with
    | nil => exact absurd hsv h
    | cons a as => simp [bed_values_used, hsv]
  · intro h
    simp [bed_values_used, h]
  · intro h
    cases hf : floatList (site_bath_values sites) with
    | none => simp [bath_values_chain, hf]
    | some v =>
      have hlen := floatList_length hf
      have hv : v.isEmpty = false := by
        cases v with
        | nil =>
          exact absurd (List.length_eq_zero.mp hlen.symm) h
        | cons q qs => rfl
      simp [bath_values_chain, hf, hv]
  · intro h
    simp [bath_values_chain, h, floatList]
  · cases hsv : site_sqft_values sites with
    | nil =>
      right
      intro v hv
      rw [show sqft_values_used sites plans = plan_sqft_values plans by
        simp [sqft_values_used, hsv]] at hv
      exact hv
    | cons a as =>
      left
      intro v hv
      rw [show sqft_values_used sites plans = site_sqft_values sites by
        simp [sqft_values_used, hsv]] at hv
      rw [hsv] at hv
      exact hv
  · cases hsv : site_bed_values sites with
    | nil =>
      right
      intro v hv
      rw [show bed_values_used sites plans = plan_bed_values plans by
        simp [bed_values_used, hsv]] at hv
      exact hv
    | cons a as =>
      left
      intro v hv
      rw [show bed_values_used sites plans = site_bed_values sites by
        simp [bed_values_used, hsv]] at hv
      rw [hsv] at hv
      exact hv

/-- C3 witness: with no homesites, every field falls back to the homeplans. -/
theorem claim_C3_witness :
    sqft_values_used [] [] = plan_sqft_values ([] : List HomePlan) :=
  (claim_C3_range_source_priority [] []).2.1 rfl

/-- C4 counterexample: the source checks `>= 2`, not exactly 2.  A second
line `"Laveen, AZ 85339, USA"` splits into 3 comma parts, which the claim
says must give the all-empty address, yet `parse_address` returns a full
address built from the first two parts. -/
theorem claim_C4_counterexample :
    (pySplitStr ',' "Laveen, AZ 85339, USA").length = 3 ∧
    parse_address (some ["123 Main St", "Laveen, AZ 85339, USA"]) ≠ emptyAddressInfo ∧
    parse_address (some ["123 Main St", "Laveen, AZ 85339, USA"]) =
      { full_address := "123 Main St, Laveen, AZ 85339", city := "Laveen",
        state := "AZ", market := "Phoenix" } := by
  refine ⟨by decide, by decide, by decide⟩

/-- C4 (amended): `parse_address` returns the all-empty `AddressInfo`
(market fixed to `"Phoenix"`), never a partial address and never an
exception, whenever the label block is absent, has fewer than 2 lines, the
second line splits into fewer than 2 comma parts, or the state+zip portion
splits into fewer than 2 whitespace tokens (the source accepts *at least*
2 in each shape check, not exactly 2); when the checks pass it returns
`"{street}, {city}, {state} {zip}"` built from the first two comma parts
and the first two whitespace tokens. -/
theorem claim_C4_parse_address : ∀ block : Option (List String),
    (block = none → parse_address block = emptyAddressInfo) ∧
    (∀ parts, block = some parts → parts.length < 2 →
      parse_address block = emptyAddressInfo) ∧
    (∀ parts, block = some parts → 2 ≤ parts.length →
      (pySplitStr ',' (parts.getD 1 "")).length < 2 →
      parse_address block = emptyAddressInfo) ∧
    (∀ parts, block = some parts → 2 ≤ parts.length →
      2 ≤ (pySplitStr ',' (parts.getD 1 "")).length →
      (pyWords (pyStrip ((pySplitStr ',' (parts.getD 1 "")).getD 1 ""))).length < 2 →
      parse_address block = emptyAddressInfo) ∧
    (∀ parts, block = some parts → 2 ≤ parts.length →
      2 ≤ (pySplitStr ',' (parts.getD 1 "")).length →
      2 ≤ (pyWords (pyStrip ((pySplitStr ',' (parts.getD 1 "")).getD 1 ""))).length →
      parse_address block =
        { full_address :=
            parts.getD 0 "" ++ ", " ++ pyStrip ((pySplitStr ',' (parts.getD 1 "")).getD 0 "")
              ++ ", "
              ++ (pyWords (pyStrip ((pySplitStr ',' (parts.getD 1 "")).getD 1 ""))).getD 0 ""
              ++ " "
              ++ (pyWords (pyStrip ((pySplitStr ',' (parts.getD 1 "")).getD 1 ""))).getD 1 "",
          city := pyStrip ((pySplitStr ',' (parts.getD 1 "")).getD 0 ""),
          state := (pyWords (pyStrip ((pySplitStr ',' (parts.getD 1 "")).getD 1 ""))).getD 0 "",
          market := "Phoenix" }) := by
  intro block
  refine ⟨?_, ?_, ?_, ?_, ?_⟩
  · intro h
    rw [h]
    rfl
  · intro parts hb hlen
    rw [hb]
    simp only [parse_address]
    rw [if_neg (by omega)]
  · intro parts hb hlen hcsz
    rw [hb]
    simp only [parse_address]
    rw [if_pos hlen, if_neg (by omega)]
  · intro parts hb hlen hcsz hsz
    rw [hb]
    simp only [parse_address]
    rw [if_pos hlen, if_pos hcsz, if_neg (by omega)]
  · intro parts hb hlen hcsz hsz
    rw [hb]
    simp only [parse_address]
    rw [if_pos hlen, if_pos hcsz, if_pos hsz]

/-- C4 witness: the amended theorem instantiated at a well-formed block. -/
theorem claim_C4_witness :
    parse_address (some ["123 Main St", "Laveen, AZ 85339"]) =
      { full_address :=
          ["123 Main St", "Laveen, AZ 85339"].getD 0 "" ++ ", "
            ++ pyStrip ((pySplitStr ','
                (["123 Main St", "Laveen, AZ 85339"].getD 1 "")).getD 0 "") ++ ", "
            ++ (pyWords (pyStrip ((pySplitStr ','
                (["123 Main St", "Laveen, AZ 85339"].getD 1 "")).getD 1 ""))).getD 0 "" ++ " "
            ++ (pyWords (pyStrip ((pySplitStr ','
                (["123 Main St", "Laveen, AZ 85339"].getD 1 "")).getD 1 ""))).getD 1 "",
        city := pyStrip ((pySplitStr ','
            (["123 Main St", "Laveen, AZ 85339"].getD 1 "")).getD 0 ""),
        state := (pyWords (pyStrip ((pySplitStr ','
            (["123 Main St", "Laveen, AZ 85339"].getD 1 "")).getD 1 ""))).getD 0 "",
        market := "Phoenix" } :=
  (claim_C4_parse_address (some ["123 Main St", "Laveen, AZ 85339"])).2.2.2.2
    ["123 Main St", "Laveen, AZ 85339"] rfl (by decide) (by decide) (by decide)

theorem parse_homesite_address_of_short {url : String}
    (h : (pySplitStr '-' ((pySplitStr '/' url).getLastD "")).length < 4) :
    parse_homesite_address url = none := by
  simp only [parse_homesite_address]
  rw [if_neg (by omega)]

theorem parse_homesite_address_of_long {url : String}
    (h : 4 ≤ (pySplitStr '-' ((pySplitStr '/' url).getLastD "")).length) :
    parse_homesite_address url =
      some ((pySplitStr '-' ((pySplitStr '/' url).getLastD "")).getD 2 "" ++ " "
              ++ pyUpper ((pySplitStr '-' ((pySplitStr '/' url).getLastD "")).getD 3 "") ++ " "
              ++ String.intercalate " "
                  ((((pySplitStr '-' ((pySplitStr '/' url).getLastD "")).drop 4).dropLast).map
                    pyCapitalize)
              ++ ", Laveen, AZ 85339",
            (pySplitStr '-' ((pySplitStr '/' url).getLastD "")).getD 2 "" ++ " "
              ++ pyUpper ((pySplitStr '-' ((pySplitStr '/' url).getLastD "")).getD 3 "") ++ " "
              ++ String.intercalate " "
                  ((((pySplitStr '-' ((pySplitStr '/' url).getLastD "")).drop 4).dropLast).map
                    pyCapitalize)
              ++ ", Laveen, AZ") := by
  simp only [parse_homesite_address]
  rw [if_pos h]

theorem parse_homesite_card_some {idx : Nat} {card : HomesiteCard} {h : Homesite}
    (hp : parse_homesite_card idx card = some h) :
    (card.titleLink = none →
      h.name = none ∧ h.url = none ∧ h.address = none ∧ h.images = [] ∧ h.image_url = none) ∧
    (∀ t href, card.titleLink = some (t, href) →
      h.name = (parse_homesite_address ("https://www.ashtonwoods.com" ++ href)).map Prod.snd ∧
      h.address = (parse_homesite_address ("https://www.ashtonwoods.com" ++ href)).map Prod.fst ∧
      h.url = some ("https://www.ashtonwoods.com" ++ href) ∧
      h.images = (if (get_homesite_images card.detailPage).isEmpty then []
                  else get_homesite_images card.detailPage) ∧
      h.image_url = (if (get_homesite_images card.detailPage).isEmpty then none
                     else (get_homesite_images card.detailPage).head?)) := by
  unfold parse_homesite_card at hp
  cases hf : card.featureTexts.foldlM parse_feature_item ⟨none, none, none⟩ with
  | none => rw [hf] at hp; simp at hp
  | some fs =>
    rw [hf] at hp
    simp only [Option.map_some'] at hp
    constructor
    · intro htl
      rw [htl] at hp
      simp only [Option.some.injEq] at hp
      subst hp
      exact ⟨rfl, rfl, rfl, rfl, rfl⟩
    · intro t href htl
      rw [htl] at hp
      simp only [Option.some.injEq] at hp
      subst hp
      exact ⟨rfl, rfl, rfl, rfl, rfl⟩

/-- C5: homesite address reconstruction hyphen-splits the trailing URL path
segment; with fewer than 4 tokens it yields the absent marker and the
homesite keeps no address; with at least 4 tokens it builds the address from
token 2 (street number), upper-cased token 3 (direction), and the title-cased
join of tokens `4:-1` (final token dropped), with the fixed
`Laveen, AZ 85339` suffix.  The example slug `lot-584-5510-w-paseo-way-jade`
gives `"5510 W Paseo Way, Laveen, AZ 85339"`. -/
theorem claim_C5_homesite_address :
    (∀ url : String, (pySplitStr '-' ((pySplitStr '/' url).getLastD "")).length < 4 →
      parse_homesite_address url = none) ∧
    (∀ url : String, 4 ≤ (pySplitStr '-' ((pySplitStr '/' url).getLastD "")).length →
      parse_homesite_address url =
        some ((pySplitStr '-' ((pySplitStr '/' url).getLastD "")).getD 2 "" ++ " "
                ++ pyUpper ((pySplitStr '-' ((pySplitStr '/' url).getLastD "")).getD 3 "") ++ " "
                ++ String.intercalate " "
                    ((((pySplitStr '-' ((pySplitStr '/' url).getLastD "")).drop 4).dropLast).map
                      pyCapitalize)
                ++ ", Laveen, AZ 85339",
              (pySplitStr '-' ((pySplitStr '/' url).getLastD "")).getD 2 "" ++ " "
                ++ pyUpper ((pySplitStr '-' ((pySplitStr '/' url).getLastD "")).getD 3 "") ++ " "
                ++ String.intercalate " "
                    ((((pySplitStr '-' ((pySplitStr '/' url).getLastD "")).drop 4).dropLast).map
                      pyCapitalize)
                ++ ", Laveen, AZ")) ∧
    parse_homesite_address
        "https://www.ashtonwoods.com/phoenix/homesite/lot-584-5510-w-paseo-way-jade" =
      some ("5510 W Paseo Way, Laveen, AZ 85339", "5510 W Paseo Way, Laveen, AZ") ∧
    (∀ (idx : Nat) (card : HomesiteCard) (t href : String) (h : Homesite),
      card.titleLink = some (t, href) →
      (pySplitStr '-'
        ((pySplitStr '/' ("https://www.ashtonwoods.com" ++ href)).getLastD "")).length < 4 →
      parse_homesite_card idx card = some h → h.address = none) := by
  refine ⟨?_, ?_, by decide, ?_⟩
  · intro url h
    exact parse_homesite_address_of_short h
  · intro url h
    exact parse_homesite_address_of_long h
  · intro idx card t href h htl hshort hp
    have hfields := (parse_homesite_card_some hp).2 t href htl
    rw [hfields.2.1, parse_homesite_address_of_short hshort]
    rfl

/-- C5 witness: a slug with fewer than 4 hyphen tokens yields no address. -/
theorem claim_C5_witness : parse_homesite_address "https://x/lot-584-5510" = none :=
  claim_C5_homesite_address.1 "https://x/lot-584-5510" (by decide)

theorem pyTruthy_isSome {o : Option String} (h : pyTruthy o = true) : o.isSome = true := by
  cases o with
  | none => simp [pyTruthy] at h
  | some s => rfl

theorem emit_homesite_eq_some {idx : Nat} {card : HomesiteCard} {h : Homesite}
    (he : emit_homesite idx card = some h) :
    parse_homesite_card idx card = some h ∧ pyTruthy h.name = true ∧ pyTruthy h.url = true := by
  unfold emit_homesite at he
  cases hp : parse_homesite_card idx card with
  | none => rw [hp] at he; simp at he
  | some h' =>
    rw [hp] at he
    have he' : (if (pyTruthy h'.name && pyTruthy h'.url) = true then some h' else none)
        = some h := he
    cases hb : pyTruthy h'.name && pyTruthy h'.url with
    | false =>
      rw [hb] at he'
      simp at he'
    | true =>
      rw [hb] at he'
      simp at he'
      subst he'
      rw [Bool.and_eq_true] at hb
      exact ⟨rfl, hb.1, hb.2⟩

theorem mem_parse_homesites_from : ∀ (cards : List HomesiteCard) (idx : Nat) (h : Homesite),
    h ∈ parse_homesites_from idx cards → ∃ i c, c ∈ cards ∧ emit_homesite i c = some h := by
  intro cards
  induction cards with
  | nil => intro idx h hmem; simp [parse_homesites_from] at hmem
  | cons c cs ih =>
    intro idx h hmem
    simp only [parse_homesites_from] at hmem
    cases he : emit_homesite idx c with
    | none =>
      rw [he] at hmem
      obtain ⟨i, c', hc', he'⟩ := ih (idx + 1) h hmem
      exact ⟨i, c', by simp [hc'], he'⟩
    | some h' =>
      rw [he] at hmem
      rcases List.mem_cons.mp hmem with heq | hmem'
      · subst heq
        exact ⟨idx, c, by simp, he⟩
      · obtain ⟨i, c', hc', he'⟩ := ih (idx + 1) h hmem'
        exact ⟨i, c', by simp [hc'], he'⟩

theorem emit_homeplan_eq_some {card : HomePlanCard} {p : HomePlan}
    (he : emit_homeplan card = some p) :
    parse_homeplan_card card = some p ∧ pyTruthy p.name = true ∧ pyTruthy p.url = true := by
  unfold emit_homeplan at he
  cases hp : parse_homeplan_card card with
  | none => rw [hp] at he; simp at he
  | some p' =>
    rw [hp] at he
    have he' : (if (pyTruthy p'.name && pyTruthy p'.url) = true then some p' else none)
        = some p := he
    cases hb : pyTruthy p'.name && pyTruthy p'.url with
    | false =>
      rw [hb] at he'
      simp at he'
    | true =>
      rw [hb] at he'
      simp at he'
      subst he'
      rw [Bool.and_eq_true] at hb
      exact ⟨rfl, hb.1, hb.2⟩

theorem mem_parse_homeplans : ∀ (cards : List HomePlanCard) (p : HomePlan),
    p ∈ parse_homeplans cards → ∃ c, c ∈ cards ∧ emit_homeplan c = some p := by
  intro cards
  induction cards with
  | nil => intro p hmem; simp [parse_homeplans] at hmem
  | cons c cs ih =>
    intro p hmem
    simp only [parse_homeplans] at hmem
    cases he : emit_homeplan c with
    | none =>
      rw [he] at hmem
      obtain ⟨c', hc', he'⟩ := ih p hmem
      exact ⟨c', by simp [hc'], he'⟩
    | some p' =>
      rw [he] at hmem
      rcases List.mem_cons.mp hmem with heq | hmem'
      · subst heq
        exact ⟨c, by simp, he⟩
      · obtain ⟨c', hc', he'⟩ := ih p hmem'
        exact ⟨c', by simp [hc'], he'⟩

/-- C8: a card contributes an entry to the homeplans/homesites output only if
both its name and its url resolved: every emitted record carries a
non-absent name and a non-absent url, so no record is written with nulls in
their place, however many other fields were extracted. -/
theorem claim_C8_card_drop_policy :
    (∀ (cards : List HomePlanCard) (p : HomePlan), p ∈ parse_homeplans cards →
      p.name.isSome = true ∧ p.url.isSome = true) ∧
    (∀ (cards : List HomesiteCard) (h : Homesite), h ∈ parse_homesites cards →
      h.name.isSome = true ∧ h.url.isSome = true) := by
  constructor
  · intro cards p hmem
    obtain ⟨c, _, he⟩ := mem_parse_homeplans cards p hmem
    obtain ⟨_, hn, hu⟩ := emit_homeplan_eq_some he
    exact ⟨pyTruthy_isSome hn, pyTruthy_isSome hu⟩
  · intro cards h hmem
    obtain ⟨i, c, _, he⟩ := mem_parse_homesites_from cards 1 h hmem
    obtain ⟨_, hn, hu⟩ := emit_homesite_eq_some he
    exact ⟨pyTruthy_isSome hn, pyTruthy_isSome hu⟩

/-- C8 witness: the drop-policy theorem applied to a concrete emitted plan
and a concrete emitted homesite. -/
theorem claim_C8_witness :
    (∀ p ∈ parse_homeplans [⟨some ("Alpine", "/plans/alpine"), none, none, none, [], []⟩],
      p.name.isSome = true ∧ p.url.isSome = true) ∧
    (∀ h ∈ parse_homesites
        [⟨some ("Jade", "/x/lot-584-5510-w-paseo-way-jade"), ⟨[], []⟩, none, none, [], none⟩],
      h.name.isSome = true ∧ h.url.isSome = true) ∧
    (parse_homeplans [⟨some ("Alpine", "/plans/alpine"), none, none, none, [], []⟩]).length = 1 ∧
    (parse_homesites
        [⟨some ("Jade", "/x/lot-584-5510-w-paseo-way-jade"), ⟨[], []⟩, none, none, [], none⟩]).length
      = 1 :=
  ⟨fun p hp => claim_C8_card_drop_policy.1 _ p hp,
   fun h hh => claim_C8_card_drop_policy.2 _ h hh,
   by decide, by decide⟩

/-- C9: a quick-move-in card whose detail URL's final path segment has fewer
than 4 hyphen tokens contributes nothing to the homesites output even when
its title link and URL are present (the name is assigned only inside the
address branch, so the final name-and-url check fails); accordingly every
emitted homesite has both a name and an address. -/
theorem claim_C9_short_slug_excluded :
    (∀ (idx : Nat) (card : HomesiteCard) (t href : String),
      card.titleLink = some (t, href) →
      (pySplitStr '-'
        ((pySplitStr '/' ("https://www.ashtonwoods.com" ++ href)).getLastD "")).length < 4 →
      emit_homesite idx card = none) ∧
    (∀ (cards : List HomesiteCard) (h : Homesite), h ∈ parse_homesites cards →
      h.name.isSome = true ∧ h.address.isSome = true) := by
  constructor
  · intro idx card t href htl hshort
    unfold emit_homesite
    cases hp : parse_homesite_card idx card with
    | none => rfl
    | some h =>
      show (if (pyTruthy h.name && pyTruthy h.url) = true then some h else none) = none
      have hfields := (parse_homesite_card_some hp).2 t href htl
      have hname : h.name = none := by
        rw [hfields.1, parse_homesite_address_of_short hshort]
        rfl
      rw [hname]
      rfl
  · intro cards h hmem
    obtain ⟨i, c, _, he⟩ := mem_parse_homesites_from cards 1 h hmem
    obtain ⟨hp, hn, _⟩ := emit_homesite_eq_some he
    cases htl : c.titleLink with
    | none =>
      have := ((parse_homesite_card_some hp).1 htl).1
      rw [this] at hn
      simp [pyTruthy] at hn
    | some pr =>
      obtain ⟨t, href⟩ := pr
      have hfields := (parse_homesite_card_some hp).2 t href htl
      cases han : parse_homesite_address ("https://www.ashtonwoods.com" ++ href) with
      | none =>
        have : h.name = none := by rw [hfields.1, han]; rfl
        rw [this] at hn
        simp [pyTruthy] at hn
      | some pr' =>
        constructor
        · exact pyTruthy_isSome hn
        · rw [hfields.2.1, han]
          rfl

/-- C9 witness: a present title link with a 3-token slug is excluded. -/
theorem claim_C9_witness :
    emit_homesite 1 ⟨some ("T", "/x/lot-584-5510"), ⟨[], []⟩, none, none, [], none⟩ = none :=
  claim_C9_short_slug_excluded.1 1 _ "T" "/x/lot-584-5510" rfl (by decide)

theorem addImage_nodup {images : List String} {u : Option String} (h : images.Nodup) :
    (addImage images u).Nodup := by
  unfold addImage
  cases u with
  | none => exact h
  | some s =>
    show (if is_valid_image_url (some s) = true ∧ s ∉ images then images ++ [s]
          else images).Nodup
    by_cases hc : is_valid_image_url (some s) = true ∧ s ∉ images
    · rw [if_pos hc]
      simp [List.nodup_append, h, hc.2]
    · rw [if_neg hc]
      exact h

theorem addImage_mem {images : List String} {u : Option String} {v : String}
    (h : v ∈ addImage images u) :
    v ∈ images ∨ is_valid_image_url (some v) = true := by
  unfold addImage at h
  cases u with
  | none => exact Or.inl h
  | some s =>
    have h' : v ∈ (if is_valid_image_url (some s) = true ∧ s ∉ images then images ++ [s]
        else images) := h
    by_cases hc : is_valid_image_url (some s) = true ∧ s ∉ images
    · rw [if_pos hc] at h'
      rcases List.mem_append.mp h' with h1 | h1
      · exact Or.inl h1
      · simp at h1
        subst h1
        exact Or.inr hc.1
    · rw [if_neg hc] at h'
      exact Or.inl h' 

theorem foldl_addImage_nodup : ∀ (items : List (Option String)) (acc : List String),
    acc.Nodup → (items.foldl addImage acc).Nodup := by
  intro items
  induction items with
  | nil => intro acc h; exact h
  | cons i is ih =>
    intro acc h
    rw [List.foldl_cons]
    exact ih _ (addImage_nodup h)

theorem foldl_addImage_mem : ∀ (items : List (Option String)) (acc : List String) (v : String),
    v ∈ items.foldl addImage acc → v ∈ acc ∨ is_valid_image_url (some v) = true := by
  intro items
  induction items with
  | nil => intro acc v h; exact Or.inl h
  | cons i is ih =>
    intro acc v h
    rw [List.foldl_cons] at h
    rcases ih _ v h with h1 | h1
    · exact addImage_mem h1
    · exact Or.inr h1

theorem addElemImages_nodup {images : List String} {e : DetailElem} (h : images.Nodup) :
    (addElemImages images e).Nodup :=
  addImage_nodup (addImage_nodup (addImage_nodup h))

theorem addElemImages_mem {images : List String} {e : DetailElem} {v : String}
    (h : v ∈ addElemImages images e) :
    v ∈ images ∨ is_valid_image_url (some v) = true := by
  unfold addElemImages at h
  rcases addImage_mem h with h1 | h1
  · rcases addImage_mem h1 with h2 | h2
    · exact addImage_mem h2
    · exact Or.inr h2
  · exact Or.inr h1

theorem foldl_addElemImages_nodup : ∀ (elems : List DetailElem) (acc : List String),
    acc.Nodup → (elems.foldl addElemImages acc).Nodup := by
  intro elems
  induction elems with
  | nil => intro acc h; exact h
  | cons e es ih =>
    intro acc h
    rw [List.foldl_cons]
    exact ih _ (addElemImages_nodup h)

theorem foldl_addElemImages_mem : ∀ (elems : List DetailElem) (acc : List String) (v : String),
    v ∈ elems.foldl addElemImages acc → v ∈ acc ∨ is_valid_image_url (some v) = true := by
  intro elems
  induction elems with
  | nil => intro acc v h; exact Or.inl h
  | cons e es ih =>
    intro acc v h
    rw [List.foldl_cons] at h
    rcases ih _ v h with h1 | h1
    · exact addElemImages_mem h1
    · exact Or.inr h1

theorem is_valid_image_url_spec {u : String} (h : is_valid_image_url (some u) = true) :
    pyIn "bizible.com" u = false ∧ pyIn "marvel-b1-cdn" u = false ∧
    (pyIn "ashtonwoods.com" u = true ∨ pyIn "widen.net" u = true) := by
  unfold is_valid_image_url at h
  have h' : (if (pyIn "bizible.com" u || pyIn "marvel-b1-cdn" u) = true then false
      else if (!(pyIn "ashtonwoods.com" u || pyIn "widen.net" u)) = true then false
      else true) = true := h
  cases h1 : pyIn "bizible.com" u || pyIn "marvel-b1-cdn" u with
  | true => rw [h1] at h'; simp at h'
  | false =>
    rw [h1] at h'
    simp only [Bool.or_eq_false_iff] at h1
    cases h2 : pyIn "ashtonwoods.com" u || pyIn "widen.net" u with
    | false => rw [h2] at h'; simp at h'
    | true =>
      rw [Bool.or_eq_true] at h2
      exact ⟨h1.1, h1.2, h2⟩

/-- C7: a homesite's image list holds no duplicate URL, at most 12 entries,
no URL containing a denylisted tracking domain, and only URLs containing one
of the two allowed domains; when the list is non-empty the homesite's primary
`image_url` is its first element. -/
theorem claim_C7_homesite_images :
    (∀ page : DetailPage,
      (get_homesite_images page).Nodup ∧
      (get_homesite_images page).length ≤ 12 ∧
      (∀ u ∈ get_homesite_images page,
        pyIn "bizible.com" u = false ∧ pyIn "marvel-b1-cdn" u = false ∧
        (pyIn "ashtonwoods.com" u = true ∨ pyIn "widen.net" u = true))) ∧
    (∀ (cards : List HomesiteCard) (h : Homesite), h ∈ parse_homesites cards →
      h.images ≠ [] → h.image_url = h.images.head?) := by
  constructor
  · intro page
    have hbig : (if (page.galleryItems.foldl addImage []).isEmpty then
        page.mainElems.foldl addElemImages [] else page.galleryItems.foldl addImage []).Nodup := by
      by_cases hg : (page.galleryItems.foldl addImage []).isEmpty
      · rw [if_pos hg]
        exact foldl_addElemImages_nodup _ _ List.nodup_nil
      · rw [if_neg hg]
        exact foldl_addImage_nodup _ _ List.nodup_nil
    refine ⟨?_, ?_, ?_⟩
    · show ((if (page.galleryItems.foldl addImage []).isEmpty then
        page.mainElems.foldl addElemImages [] else page.galleryItems.foldl addImage []).take
          12).Nodup
      exact hbig.sublist (List.take_sublist _ _)
    · show ((if (page.galleryItems.foldl addImage []).isEmpty then
        page.mainElems.foldl addElemImages [] else page.galleryItems.foldl addImage []).take
          12).length ≤ 12
      simp [List.length_take]
    · intro u hu
      have hu' : u ∈ (if (page.galleryItems.foldl addImage []).isEmpty then
          page.mainElems.foldl addElemImages [] else page.galleryItems.foldl addImage []) :=
        List.take_subset _ _ hu
      have hvalid : is_valid_image_url (some u) = true := by
        by_cases hg : (page.galleryItems.foldl addImage []).isEmpty
        · rw [if_pos hg] at hu'
          rcases foldl_addElemImages_mem _ _ _ hu' with h1 | h1
          · simp at h1
          · exact h1
        · rw [if_neg hg] at hu'
          rcases foldl_addImage_mem _ _ _ hu' with h1 | h1
          · simp at h1
          · exact h1
      exact is_valid_image_url_spec hvalid
  · intro cards h hmem hne
    obtain ⟨i, c, _, he⟩ := mem_parse_homesites_from cards 1 h hmem
    obtain ⟨hp, _, _⟩ := emit_homesite_eq_some he
    cases htl : c.titleLink with
    | none =>
      have hinfo := (parse_homesite_card_some hp).1 htl
      exact absurd hinfo.2.2.2.1 hne
    | some pr =>
      obtain ⟨t, href⟩ := pr
      have hfields := (parse_homesite_card_some hp).2 t href htl
      cases hg : (get_homesite_images c.detailPage).isEmpty with
      | true =>
        have : h.images = [] := by rw [hfields.2.2.2.1, hg]; rfl
        exact absurd this hne
      | false =>
        have h1 : h.images = get_homesite_images c.detailPage := by
          rw [hfields.2.2.2.1, hg]
          rfl
        have h2 : h.image_url = (get_homesite_images c.detailPage).head? := by
          rw [hfields.2.2.2.2, hg]
          rfl
        rw [h1, h2]

/-- C7 witness: the invariants at a concrete detail page with a duplicate and
a denylisted URL, and the primary image of a concrete emitted homesite. -/
theorem claim_C7_witness :
    (get_homesite_images ⟨[some "https://x.widen.net/a", some "https://x.widen.net/a",
        some "http://bizible.com/t"], []⟩).Nodup ∧
    (get_homesite_images ⟨[some "https://x.widen.net/a", some "https://x.widen.net/a",
        some "http://bizible.com/t"], []⟩).length ≤ 12 ∧
    (∀ h ∈ parse_homesites
        [⟨some ("Jade", "/x/lot-584-5510-w-paseo-way-jade"),
          ⟨[some "https://x.widen.net/a"], []⟩, none, none, [], none⟩],
      h.images ≠ [] → h.image_url = h.images.head?) :=
  ⟨(claim_C7_homesite_images.1 _).1, (claim_C7_homesite_images.1 _).2.1,
   fun h hmem hne => claim_C7_homesite_images.2 _ h hmem hne⟩

theorem assemble_tail_no_price {d : List (String × Val)} {pg : Page} {hs : List Homesite}
    {hp : List HomePlan} (h : d.lookup "price_from" = none) :
    assemble_tail d pg hs hp = none := by
  unfold assemble_tail
  cases hb : bath_values_chain hs hp with
  | none => rfl
  | some bq =>
    rw [h]

/-- C6: when no text node matches the `Plans from $` pattern, the
`price_from` key is never assigned; the later read of that key fails and the
swallowed error leaves the returned record without the `details`,
`amenities`, `nearbyplaces` and `collections` keys, while the keys assigned
earlier (`name`, `address`, `location`, `phone`, `description`, `images`,
`homeplans`, `homesites`) are still present.  The function still returns the
record normally, so `process_community_url` writes it out unchanged. -/
theorem claim_C6_price_from_keyerror : ∀ pg : Page, pg.priceText = none →
    (parse_community_data pg).lookup "price_from" = none ∧
    (parse_community_data pg).lookup "details" = none ∧
    (parse_community_data pg).lookup "amenities" = none ∧
    (parse_community_data pg).lookup "nearbyplaces" = none ∧
    (parse_community_data pg).lookup "collections" = none ∧
    ((parse_community_data pg).lookup "name").isSome = true ∧
    ((parse_community_data pg).lookup "address").isSome = true ∧
    ((parse_community_data pg).lookup "location").isSome = true ∧
    ((parse_community_data pg).lookup "phone").isSome = true ∧
    ((parse_community_data pg).lookup "description").isSome = true ∧
    ((parse_community_data pg).lookup "images").isSome = true ∧
    ((parse_community_data pg).lookup "homeplans").isSome = true ∧
    ((parse_community_data pg).lookup "homesites").isSome = true := by
  intro pg hpt
  obtain ⟨now, url, h1t, pt, ab, ph, de, csl, pc, sc, amt⟩ := pg
  change pt = none at hpt
  subst hpt
  have hbase : (community_base ⟨now, url, h1t, none, ab, ph, de, csl, pc, sc, amt⟩).lookup
      "price_from" = none := rfl
  have hpcd : parse_community_data ⟨now, url, h1t, none, ab, ph, de, csl, pc, sc, amt⟩ =
      community_base ⟨now, url, h1t, none, ab, ph, de, csl, pc, sc, amt⟩ := by
    unfold parse_community_data
    rw [assemble_tail_no_price hbase]
  rw [hpcd]
  exact ⟨rfl, rfl, rfl, rfl, rfl, rfl, rfl, rfl, rfl, rfl, rfl, rfl, rfl⟩

/-- C6 witness: the truncation on a concrete page with no price text. -/
theorem claim_C6_witness :
    (parse_community_data ⟨"", "", none, none, none, none, none, [], [], [], []⟩).lookup
      "details" = none ∧
    ((parse_community_data ⟨"", "", none, none, none, none, none, [], [], [], []⟩).lookup
      "homesites").isSome = true :=
  ⟨(claim_C6_price_from_keyerror ⟨"", "", none, none, none, none, none, [], [], [], []⟩ rfl).2.1,
   (claim_C6_price_from_keyerror ⟨"", "", none, none, none, none, none, [], [], [], []⟩
      rfl).2.2.2.2.2.2.2.2.2.2.2.2⟩
